import Mathlib

/-!
# yanff: pcap codec and the "separate" stability test

A shallow embedding of `packet/pcap_utils.go` and of the statistics part of
`test/stability/test_separate/test-separate-part1.go`.

Conventions of the embedding.

* An octet is a `Fin 256`; a byte string (`[]byte`) is a `List Byte`.
* Go machine integers are `Nat`/`Int`; every conversion and every wrapping
  operation is written with an explicit modulus.
* An `io.Writer` is a state transformer `σ → List Byte → σ × Option ε`: one
  call of `Write` on the writer state with a buffer, returning the new state
  and the error (`none` for `nil`).
* An `io.Reader` over a finite byte stream is the list of octets not yet
  consumed.
* `encoding/binary`, `io` and `time` are the Go standard library; they are
  modelled by what they do on these models (`binary.Write` encodes and issues
  one `Write`; `binary.Read` is `io.ReadFull` followed by decoding).
* `common.LogError` only logs and is left out.
-/

namespace Yanff

/-! ## Octets and little-endian encoding (`encoding/binary`) -/

/-- An octet. -/
abbrev Byte := Fin 256

/-- Low eight bits of a number, Go's `byte(v)`. -/
def byteOf (v : Nat) : Byte := ⟨v % 256, Nat.mod_lt v (by decide)⟩

/-- Encoding of `binary.LittleEndian.PutUint16`. -/
def putUint16 (v : Nat) : List Byte := [byteOf v, byteOf (v / 256)]

/-- Encoding of `binary.LittleEndian.PutUint32`. -/
def putUint32 (v : Nat) : List Byte :=
  [byteOf v, byteOf (v / 256), byteOf (v / 65536), byteOf (v / 16777216)]

/-- Decoding of `binary.LittleEndian.Uint16` at offset `off`. -/
def uint16At (bs : List Byte) (off : Nat) : Nat :=
  (bs.getD off 0).val + 256 * (bs.getD (off + 1) 0).val

/-- Decoding of `binary.LittleEndian.Uint32` at offset `off`. -/
def uint32At (bs : List Byte) (off : Nat) : Nat :=
  (bs.getD off 0).val + 256 * (bs.getD (off + 1) 0).val
    + 65536 * (bs.getD (off + 2) 0).val + 16777216 * (bs.getD (off + 3) 0).val

/-- Go conversion `uint32(x)` of a signed integer: reduction modulo `2^32`. -/
def toUint32 (x : Int) : Nat := (x % 4294967296).toNat

/-- Go conversion `int32(x)` of an unsigned 32-bit value (two's complement). -/
def toInt32 (x : Nat) : Int :=
  if x % 4294967296 < 2147483648 then ((x % 4294967296 : Nat) : Int)
  else ((x % 4294967296 : Nat) : Int) - 4294967296

/-- Wrap-around of a mathematical integer into `int64`. -/
def wrapInt64 (x : Int) : Int :=
  (x + 9223372036854775808) % 18446744073709551616 - 9223372036854775808

/-! ## `time.Time` -/

/-- A reading of the clock: whole seconds since the Unix epoch (an `int64`,
negative before 1970) and the nanoseconds within that second. -/
structure Time where
  sec : Int
  nsec : Nat
deriving DecidableEq, Repr

/-- The readings `time.Time` can hold: `0 ≤ nsec < 10^9`, seconds in `int64`. -/
def Time.valid (t : Time) : Prop :=
  t.nsec < 1000000000 ∧ -9223372036854775808 ≤ t.sec ∧ t.sec < 9223372036854775808

instance (t : Time) : Decidable t.valid := by
  unfold Time.valid; exact inferInstance

/-- Go's `t.Unix()`. -/
def Time.Unix (t : Time) : Int := t.sec

/-- Go's `t.UnixNano()`: Unix time in nanoseconds, computed in `int64`. -/
def Time.UnixNano (t : Time) : Int := wrapInt64 (t.sec * 1000000000 + (t.nsec : Int))

/-- The Unix-nanosecond value of a reading as a mathematical integer. -/
def Time.nanos (t : Time) : Int := t.sec * 1000000000 + (t.nsec : Int)

/-! ## Headers -/

/-- Size of the pcap global header. -/
def PcapGlobHdrSize : Nat := 24

/-- Pcap global header. -/
structure PcapGlobHdr where
  MagicNumber : Nat
  VersionMajor : Nat
  VersionMinor : Nat
  Thiszone : Int
  Sigfigs : Nat
  Snaplen : Nat
  Network : Nat
deriving DecidableEq, Repr

/-- Pcap packet (record) header. -/
structure PcapRecHdr where
  TsSec : Nat
  TsUsec : Nat
  InclLen : Nat
  OrigLen : Nat
deriving DecidableEq, Repr

/-- What `binary.Write(_, binary.LittleEndian, &glHdr)` hands to the writer:
the fields in declaration order, each little-endian at its declared width. -/
def encodeGlobHdr (h : PcapGlobHdr) : List Byte :=
  putUint32 h.MagicNumber ++ putUint16 h.VersionMajor ++ putUint16 h.VersionMinor
    ++ putUint32 (toUint32 h.Thiszone) ++ putUint32 h.Sigfigs ++ putUint32 h.Snaplen
    ++ putUint32 h.Network

/-- What `binary.Write(_, binary.LittleEndian, &hdr)` hands to the writer. -/
def encodeRecHdr (h : PcapRecHdr) : List Byte :=
  putUint32 h.TsSec ++ putUint32 h.TsUsec ++ putUint32 h.InclLen ++ putUint32 h.OrigLen

/-- What `binary.Read` stores in a `*PcapGlobHdr` from 24 octets. -/
def decodeGlobHdr (bs : List Byte) : PcapGlobHdr where
  MagicNumber := uint32At bs 0
  VersionMajor := uint16At bs 4
  VersionMinor := uint16At bs 6
  Thiszone := toInt32 (uint32At bs 8)
  Sigfigs := uint32At bs 12
  Snaplen := uint32At bs 16
  Network := uint32At bs 20

/-- What `binary.Read` stores in a `*PcapRecHdr` from 16 octets. -/
def decodeRecHdr (bs : List Byte) : PcapRecHdr where
  TsSec := uint32At bs 0
  TsUsec := uint32At bs 4
  InclLen := uint32At bs 8
  OrigLen := uint32At bs 12

/-! ## Packets -/

/-- Modelled from the spec: the `Packet` type, `low.GetRawPacketBytesMbuf` and
`GeneratePacketFromByte` are not among the sources. A packet is a view over a
buffer, "a fixed-capacity octet region" with "a current length"; here it is
the octets currently held by the buffer. The capacity is not fixed here: a
statement that needs the length to fit 32 bits says so. -/
structure Packet where
  raw : List Byte
deriving DecidableEq, Repr

/-- Modelled from the spec: `low.GetRawPacketBytesMbuf` is not among the
sources; it yields the raw bytes of the packet's buffer. -/
def GetRawPacketBytesMbuf (pkt : Packet) : List Byte := pkt.raw

/-- Modelled from the spec: `GeneratePacketFromByte` is not among the sources;
it fills the given packet with the given bytes. -/
def GeneratePacketFromByte (_pkt : Packet) (data : List Byte) : Packet := { raw := data }

/-! ## Writing -/

/-- An `io.Writer`: one `Write` call on a state, giving the new state and the
error returned (`none` is `nil`). -/
abbrev Writer (σ ε : Type) := σ → List Byte → σ × Option ε

/-- `binary.Write` on already encoded data: a single `Write` of the encoding,
whose error is returned. -/
def binaryWrite {σ ε : Type} (f : Writer σ ε) (s : σ) (bs : List Byte) : σ × Option ε :=
  f s bs

/-- WritePcapGlobalHdr writes global pcap header into file. -/
def WritePcapGlobalHdr {σ ε : Type} (f : Writer σ ε) (s : σ) : σ × Option ε :=
  let glHdr : PcapGlobHdr :=
    { MagicNumber := 0xa1b23c4d
      VersionMajor := 2
      VersionMinor := 4
      Thiszone := 0
      Sigfigs := 0
      Snaplen := 65535
      Network := 1 }
  match binaryWrite f s (encodeGlobHdr glHdr) with
  | (s', some err) => (s', some err)
  | (s', none) => (s', none)

/-- The record header built by `writePcapRecHdr` from the clock reading `t`
and the packet bytes. Go's `%` truncates toward zero (`Int.tmod`). -/
def mkRecHdr (t : Time) (pktBytes : List Byte) : PcapRecHdr where
  TsSec := toUint32 t.Unix
  TsUsec := toUint32 (Int.tmod t.UnixNano 1000000000)
  InclLen := pktBytes.length % 4294967296
  OrigLen := pktBytes.length % 4294967296

/-- Source `writePcapRecHdr`; `t` is the value returned by `now()`. -/
def writePcapRecHdr {σ ε : Type} (f : Writer σ ε) (s : σ) (t : Time) (pktBytes : List Byte) :
    σ × Option ε :=
  let hdr := mkRecHdr t pktBytes
  binaryWrite f s (encodeRecHdr hdr)

/-- Source `writePacketBytes`. -/
def writePacketBytes {σ ε : Type} (f : Writer σ ε) (s : σ) (pktBytes : List Byte) :
    σ × Option ε :=
  match binaryWrite f s pktBytes with
  | (s', some err) => (s', some err)
  | (s', none) => (s', none)

/-- WritePcapOnePacket writes one packet with pcap header in file. -/
def WritePcapOnePacket {σ ε : Type} (pkt : Packet) (f : Writer σ ε) (s : σ) (t : Time) :
    σ × Option ε :=
  let bytes := GetRawPacketBytesMbuf pkt
  match writePcapRecHdr f s t bytes with
  | (s', some err) => (s', some err)
  | (s', none) => writePacketBytes f s' bytes

/-! ## Reading -/

/-- The two errors `io.ReadFull` reports on a finite stream. -/
inductive IoErr where
  | EOF
  | ErrUnexpectedEOF
deriving DecidableEq, Repr

/-- `io.ReadFull(f, buf)` with `len(buf) = n` on a finite stream: the octets
left and either the `n` octets read, `io.EOF` when nothing could be read, or
`io.ErrUnexpectedEOF` when the stream ended after some but not all of them. -/
def ioReadFull (f : List Byte) (n : Nat) : List Byte × Except IoErr (List Byte) :=
  if n ≤ f.length then (f.drop n, .ok (f.take n))
  else if f.length = 0 then ([], .error .EOF)
  else ([], .error .ErrUnexpectedEOF)

/-- ReadPcapGlobalHdr read global pcap header into file. The header argument
is the caller's struct; it is overwritten only on success. -/
def ReadPcapGlobalHdr (f : List Byte) (glHdr : PcapGlobHdr) :
    List Byte × PcapGlobHdr × Option IoErr :=
  match ioReadFull f PcapGlobHdrSize with
  | (f', .error err) => (f', glHdr, some err)
  | (f', .ok bs) => (f', decodeGlobHdr bs, none)

/-- Source `readPcapRecHdr`. -/
def readPcapRecHdr (f : List Byte) (hdr : PcapRecHdr) :
    List Byte × PcapRecHdr × Option IoErr :=
  match ioReadFull f 16 with
  | (f', .error err) => (f', hdr, some err)
  | (f', .ok bs) => (f', decodeRecHdr bs, none)

/-- Source `readPacketBytes`. -/
def readPacketBytes (f : List Byte) (inclLen : Nat) : List Byte × Except IoErr (List Byte) :=
  match ioReadFull f inclLen with
  | (f', .error err) => (f', .error err)
  | (f', .ok pkt) => (f', .ok pkt)

/-- Outcome of one `ReadPcapOnePacket` call: the packet as left by the call,
the rest of the stream, and the two returned values. -/
structure ReadResult where
  pkt : Packet
  rest : List Byte
  eof : Bool
  err : Option IoErr
deriving DecidableEq, Repr

/-- ReadPcapOnePacket read one packet with pcap header from file. -/
def ReadPcapOnePacket (pkt : Packet) (f : List Byte) : ReadResult :=
  let hdr : PcapRecHdr := { TsSec := 0, TsUsec := 0, InclLen := 0, OrigLen := 0 }
  match readPcapRecHdr f hdr with
  | (f1, _, some .EOF) => { pkt := pkt, rest := f1, eof := true, err := none }
  | (f1, _, some err) => { pkt := pkt, rest := f1, eof := false, err := some err }
  | (f1, hdr, none) =>
    match readPacketBytes f1 hdr.InclLen with
    | (f2, .error err) => { pkt := pkt, rest := f2, eof := false, err := some err }
    | (f2, .ok bytes) =>
      { pkt := GeneratePacketFromByte pkt bytes, rest := f2, eof := false, err := none }

/-- A writer that accepts all bytes (a `bytes.Buffer`): appends, never fails. -/
def bufferWrite : Writer (List Byte) IoErr := fun s bs => (s ++ bs, none)

/-- A writer that records every `Write` call issued on the underlying writer
`f`: the state carries the list of buffers written so far, oldest first. -/
def traced {σ ε : Type} (f : Writer σ ε) : Writer (σ × List (List Byte)) ε :=
  fun st bs => (((f st.1 bs).1, st.2 ++ [bs]), (f st.1 bs).2)

/-- The stream produced by `WritePcapOnePacket` for each packet in order on a
writer that accepts all bytes; each packet comes with the clock reading taken
when it is written. The result is the buffer and the first error, if any. -/
def writePackets : List (Time × Packet) → List Byte → List Byte × Option IoErr
  | [], s => (s, none)
  | (t, p) :: rest, s =>
    match WritePcapOnePacket p bufferWrite s t with
    | (s', some err) => (s', some err)
    | (s', none) => writePackets rest s'

/-- The capture file of a list of packets: the global header, then the
records. -/
def writeCapture (ps : List (Time × Packet)) : List Byte × Option IoErr :=
  match WritePcapGlobalHdr bufferWrite [] with
  | (s, some err) => (s, some err)
  | (s, none) => writePackets ps s

/-- Repeated `ReadPcapOnePacket`, `n` calls in a row, each on a fresh packet;
the results are listed in call order together with the stream left. -/
def readPackets : Nat → List Byte → List ReadResult × List Byte
  | 0, f => ([], f)
  | n + 1, f =>
    let r := ReadPcapOnePacket { raw := [] } f
    let rs := readPackets n r.rest
    (r :: rs.1, rs.2)

/-- The octets of the records of a list of packets, in order: each record is
its 16-octet header followed by the packet bytes. -/
def records : List (Time × Packet) → List Byte
  | [] => []
  | (t, p) :: rest => encodeRecHdr (mkRecHdr t p.raw) ++ (p.raw ++ records rest)

/-- The global header value that `WritePcapGlobalHdr` writes. -/
def writtenGlobHdr : PcapGlobHdr :=
  { MagicNumber := 0xa1b23c4d
    VersionMajor := 2
    VersionMinor := 4
    Thiszone := 0
    Sigfigs := 0
    Snaplen := 65535
    Network := 1 }

/-- A captured record whose `orig_len` equals its `incl_len`: header
`(ts_sec 1, ts_nsec 2, incl_len 2, orig_len 2)` and two body octets. -/
def fullRecord : List Byte :=
  encodeRecHdr { TsSec := 1, TsUsec := 2, InclLen := 2, OrigLen := 2 } ++ [0xaa, 0xbb]

/-- A truncated capture of a 1500-octet packet: the same header and body as
`fullRecord` except for `orig_len = 1500`. -/
def truncatedRecord : List Byte :=
  encodeRecHdr { TsSec := 1, TsUsec := 2, InclLen := 2, OrigLen := 1500 } ++ [0xaa, 0xbb]

/-! ## The separate stability test (`test-separate-part1.go`) -/

def eps : Int := 2
def high1 : Int := 33 + eps
def low1 : Int := 33 - eps
def high2 : Int := 66 + eps
def low2 : Int := 66 - eps

def passedLimit : Nat := 85
def payloadSize : Nat := 16

def dstPort1 : Nat := 111
def dstPort2 : Nat := 222
def dstPort3 : Nat := 333

/-- Number of values of a `uint64`. -/
def u64 : Nat := 18446744073709551616

/-- Go conversion `int(x)` of a `uint64` on a 64-bit platform. -/
def toInt (x : Nat) : Int :=
  if x % u64 < 9223372036854775808 then ((x % u64 : Nat) : Int)
  else ((x % u64 : Nat) : Int) - 18446744073709551616

/-- Go's `a / b` on `uint64`: a run-time panic (`none`) when `b = 0`. -/
def udiv (a b : Nat) : Option Nat := if b = 0 then none else some (a / b)

/-- What the test prints last. -/
inductive Verdict where
  | passed
  | failed
deriving DecidableEq, Repr

/-- The percentages `p1`, `p2` computed in `main` from the two receive
counters; `none` is a division-by-zero panic. -/
def percentages (recv1 recv2 : Nat) : Option (Int × Int) :=
  let received := (recv1 + recv2) % u64
  if received ≠ 0 then
    match udiv (recv1 * 100 % u64) received with
    | none => none
    | some q1 =>
      match udiv (recv2 * 100 % u64) received with
      | none => none
      | some q2 => some (toInt q1, toInt q2)
  else some (0, 0)

/-- The verdict of `main` from the counters loaded at the end of the run: the
condition is evaluated left to right with short-circuit `&&`; `none` is a
division-by-zero panic. -/
def mainVerdict (sent recv1 recv2 : Nat) : Option Verdict :=
  let received := (recv1 + recv2) % u64
  match percentages recv1 recv2 with
  | none => none
  | some (p1, p2) =>
    if p1 ≤ high1 then
      if p2 ≤ high2 then
        if p1 ≥ low1 then
          if p2 ≥ low2 then
            match udiv (received * 100 % u64) sent with
            | none => none
            | some q => if q > passedLimit then some .passed else some .failed
          else some .failed
        else some .failed
      else some .failed
    else some .failed

/-- Modelled from the spec: the UDP header view of `packet.Packet` is not among
the sources; only the destination port field, stored in network byte order, is
used here. -/
structure UDPHdr where
  DstPort : Nat
deriving DecidableEq, Repr

/-- Modelled from the spec: the generator's view of a packet (its UDP header
and the payload slot `packetData.HdrsMD5`); the `Packet` type is not among the
sources. -/
structure GenPacket where
  UDP : UDPHdr
  HdrsMD5 : List Byte
deriving DecidableEq, Repr

/-- Modelled from the spec: `packet.SwapBytesUint16` is not among the sources;
it is the endianness helper for 16-bit big-endian protocol fields. -/
def SwapBytesUint16 (x : Nat) : Nat := (x % 65536) / 256 + (x % 256) * 256

/-- The collaborators of `generatePacket` that are not among the sources:
`packet.InitEmptyIPv4UDPPacket` (its success flag and the initialised packet)
and `md5.Sum` over the header bytes of a packet. -/
structure GenEnv where
  InitEmptyIPv4UDPPacket : GenPacket → Nat → Bool × GenPacket
  md5Hdrs : GenPacket → List Byte

/-- Source `generatePacket` on the global `count`: the new value of `count`
and the filled packet; `none` is a panic. -/
def generatePacket (env : GenEnv) (count : Nat) (pkt : Option GenPacket) :
    Option (Nat × GenPacket) :=
  match pkt with
  | none => none
  | some pkt =>
    let count := (count + 1) % u64
    match env.InitEmptyIPv4UDPPacket pkt payloadSize with
    | (false, _) => none
    | (true, pkt) =>
      let pkt : GenPacket :=
        if count % 3 = 0 then { pkt with UDP := { DstPort := SwapBytesUint16 dstPort1 } }
        else if count % 3 = 1 then { pkt with UDP := { DstPort := SwapBytesUint16 dstPort2 } }
        else { pkt with UDP := { DstPort := SwapBytesUint16 dstPort3 } }
      some (count, { pkt with HdrsMD5 := env.md5Hdrs pkt })

/-- An empty packet as handed to the generator. -/
def blankPacket : GenPacket := { UDP := { DstPort := 0 }, HdrsMD5 := [] }

/-- Sequential calls of `generatePacket`, `n` of them starting from the given
value of `count`, each on a fresh packet: the final `count` and the packets in
call order (`none` if a call panics). -/
def generateN (env : GenEnv) : Nat → Nat → Option (Nat × List GenPacket)
  | 0, count => some (count, [])
  | n + 1, count =>
    match generateN env n count with
    | none => none
    | some (c, ps) =>
      match generatePacket env c (some blankPacket) with
      | none => none
      | some (c', p) => some (c', ps ++ [p])

/-- The UDP destination port a packet carries on the wire: the big-endian
field read back in host order. -/
def wirePort (p : GenPacket) : Nat := SwapBytesUint16 p.UDP.DstPort

/-- The port of the round-robin rule for call number `n`: 111, 222, 333 for
`n mod 3 = 0, 1, 2`. -/
def portOfCall (n : Nat) : Nat :=
  if n % 3 = 0 then 111 else if n % 3 = 1 then 222 else 333

/-- A collaborator environment in which initialisation always succeeds. -/
def plainEnv : GenEnv where
  InitEmptyIPv4UDPPacket := fun p _ => (true, p)
  md5Hdrs := fun _ => []

/-! ## Lemmas on the little-endian encoding -/

theorem putUint32_length (v : Nat) : (putUint32 v).length = 4 := rfl

theorem encodeRecHdr_length (h : PcapRecHdr) : (encodeRecHdr h).length = 16 := rfl

theorem encodeGlobHdr_length (h : PcapGlobHdr) : (encodeGlobHdr h).length = 24 := rfl

theorem le32_roundtrip (v : Nat) :
    v % 256 + 256 * (v / 256 % 256) + 65536 * (v / 65536 % 256)
      + 16777216 * (v / 16777216 % 256) = v % 4294967296 := by
  omega

theorem putUint32_mod (v : Nat) : putUint32 (v % 4294967296) = putUint32 v := by
  simp only [putUint32, byteOf, List.cons.injEq, Fin.mk.injEq, and_true]
  omega

theorem decodeRecHdr_encodeRecHdr (h : PcapRecHdr) (tail : List Byte) :
    decodeRecHdr (encodeRecHdr h ++ tail) =
      { TsSec := h.TsSec % 4294967296, TsUsec := h.TsUsec % 4294967296,
        InclLen := h.InclLen % 4294967296, OrigLen := h.OrigLen % 4294967296 } := by
  simp [decodeRecHdr, encodeRecHdr, uint32At, putUint32, byteOf, le32_roundtrip]

theorem mkRecHdr_ts (t : Time) (bs : List Byte) (hn : t.nsec < 1000000000)
    (h0 : 0 ≤ t.sec) (h1 : t.sec < 4294967296) :
    ((mkRecHdr t bs).TsSec : Int) = t.sec ∧ (mkRecHdr t bs).TsUsec = t.nsec := by
  obtain ⟨sec, nsec⟩ := t
  simp only at hn h0 h1
  simp only [mkRecHdr, Time.Unix, Time.UnixNano, toUint32, wrapInt64]
  constructor
  · omega
  · have hw : (sec * 1000000000 + (nsec : Int) + 9223372036854775808) % 18446744073709551616
        - 9223372036854775808 = sec * 1000000000 + (nsec : Int) := by omega
    rw [hw]
    have h2 : Int.tmod (sec * 1000000000 + (nsec : Int)) 1000000000 = (nsec : Int) := by
      rw [Int.tmod_eq_emod (by omega) (by omega)]
      omega
    rw [h2]; omega

theorem WritePcapOnePacket_buffer (pkt : Packet) (s : List Byte) (t : Time) :
    WritePcapOnePacket pkt bufferWrite s t
      = (s ++ (encodeRecHdr (mkRecHdr t pkt.raw) ++ pkt.raw), none) := by
  simp [WritePcapOnePacket, writePcapRecHdr, writePacketBytes, binaryWrite, bufferWrite,
    GetRawPacketBytesMbuf]

/-! ## The global header -/

/-- C2: on a writer that accepts all bytes `WritePcapGlobalHdr` appends exactly
24 octets (`PcapGlobHdrSize`) and returns no error; the octets are the
little-endian encodings of magic `0xa1b23c4d`, major 2, minor 4, thiszone 0,
sigfigs 0, snaplen 65535 and link type 1, in that order, that is
`4d 3c b2 a1 02 00 04 00 00 00 00 00 00 00 00 00 ff ff 00 00 01 00 00 00`. -/
theorem WritePcapGlobalHdr_octets (s : List Byte) :
    WritePcapGlobalHdr bufferWrite s
        = (s ++ [0x4d, 0x3c, 0xb2, 0xa1, 0x02, 0x00, 0x04, 0x00, 0x00, 0x00, 0x00, 0x00,
                 0x00, 0x00, 0x00, 0x00, 0xff, 0xff, 0x00, 0x00, 0x01, 0x00, 0x00, 0x00], none)
      ∧ ((WritePcapGlobalHdr bufferWrite s).1.length = s.length + PcapGlobHdrSize)
      ∧ ([0x4d, 0x3c, 0xb2, 0xa1, 0x02, 0x00, 0x04, 0x00, 0x00, 0x00, 0x00, 0x00,
          0x00, 0x00, 0x00, 0x00, 0xff, 0xff, 0x00, 0x00, 0x01, 0x00, 0x00, 0x00] : List Byte)
        = putUint32 0xa1b23c4d ++ putUint16 2 ++ putUint16 4 ++ putUint32 (toUint32 0)
            ++ putUint32 0 ++ putUint32 65535 ++ putUint32 1 := by
  have h : WritePcapGlobalHdr bufferWrite s
      = (s ++ [0x4d, 0x3c, 0xb2, 0xa1, 0x02, 0x00, 0x04, 0x00, 0x00, 0x00, 0x00, 0x00,
               0x00, 0x00, 0x00, 0x00, 0xff, 0xff, 0x00, 0x00, 0x01, 0x00, 0x00, 0x00], none) := by
    have e : encodeGlobHdr ⟨0xa1b23c4d, 2, 4, 0, 0, 65535, 1⟩
        = [0x4d, 0x3c, 0xb2, 0xa1, 0x02, 0x00, 0x04, 0x00, 0x00, 0x00, 0x00, 0x00,
           0x00, 0x00, 0x00, 0x00, 0xff, 0xff, 0x00, 0x00, 0x01, 0x00, 0x00, 0x00] := by decide
    simp only [WritePcapGlobalHdr, binaryWrite, bufferWrite, e]
  refine ⟨h, ?_, by decide⟩
  rw [h]
  simp [PcapGlobHdrSize]

/-! ## One record -/

/-- C3: for every packet with raw bytes `p`, `WritePcapOnePacket` on a writer
that accepts all bytes returns no error and appends exactly `16 + len(p)`
octets: the record header as four little-endian u32 fields `ts_sec, ts_nsec,
incl_len, orig_len`, the last two both holding `len(p)` (read back as the
number `len(p)` for every length a u32 holds), immediately followed by the
bytes of `p`, unchanged and in order. -/
theorem WritePcapOnePacket_record (pkt : Packet) (s : List Byte) (t : Time) :
    ∃ out : List Byte,
      WritePcapOnePacket pkt bufferWrite s t = (s ++ out, none)
      ∧ out.length = 16 + pkt.raw.length
      ∧ out.take 16 = putUint32 (mkRecHdr t pkt.raw).TsSec ++ putUint32 (mkRecHdr t pkt.raw).TsUsec
          ++ putUint32 pkt.raw.length ++ putUint32 pkt.raw.length
      ∧ out.drop 16 = pkt.raw
      ∧ (pkt.raw.length < 4294967296 →
          (decodeRecHdr out).InclLen = pkt.raw.length
          ∧ (decodeRecHdr out).OrigLen = pkt.raw.length) := by
  refine ⟨encodeRecHdr (mkRecHdr t pkt.raw) ++ pkt.raw, WritePcapOnePacket_buffer pkt s t, ?_, ?_,
    ?_, ?_⟩
  · simp [encodeRecHdr_length]
  · rw [List.take_left' (encodeRecHdr_length _)]
    simp [encodeRecHdr, mkRecHdr, putUint32_mod]
  · rw [List.drop_left' (encodeRecHdr_length _)]
  · intro hp
    rw [decodeRecHdr_encodeRecHdr]
    simp [mkRecHdr, Nat.mod_eq_of_lt hp]

/-- Instance of C3 on a three-octet packet: the nineteen octets written. -/
theorem WritePcapOnePacket_record_witness :
    WritePcapOnePacket { raw := [1, 2, 3] } bufferWrite [] { sec := 7, nsec := 9 }
      = ([7, 0, 0, 0, 9, 0, 0, 0, 3, 0, 0, 0, 3, 0, 0, 0, 1, 2, 3], none)
    ∧ ∃ out : List Byte,
      WritePcapOnePacket { raw := [1, 2, 3] } bufferWrite [] { sec := 7, nsec := 9 } = ([] ++ out, none)
      ∧ out.length = 16 + ({ raw := [1, 2, 3] } : Packet).raw.length
      ∧ out.take 16 = putUint32 (mkRecHdr { sec := 7, nsec := 9 } [1, 2, 3]).TsSec
          ++ putUint32 (mkRecHdr { sec := 7, nsec := 9 } [1, 2, 3]).TsUsec
          ++ putUint32 ({ raw := [1, 2, 3] } : Packet).raw.length
          ++ putUint32 ({ raw := [1, 2, 3] } : Packet).raw.length
      ∧ out.drop 16 = ({ raw := [1, 2, 3] } : Packet).raw
      ∧ (({ raw := [1, 2, 3] } : Packet).raw.length < 4294967296 →
          (decodeRecHdr out).InclLen = ({ raw := [1, 2, 3] } : Packet).raw.length
          ∧ (decodeRecHdr out).OrigLen = ({ raw := [1, 2, 3] } : Packet).raw.length) :=
  ⟨by decide, WritePcapOnePacket_record { raw := [1, 2, 3] } [] { sec := 7, nsec := 9 }⟩

/-! ## Timestamps -/

/-- C4 fails as stated: at the clock reading 2106-02-07T06:28:16Z (Unix second
`2^32`) the header written by `writePcapRecHdr` carries `ts_sec = 0`, so
`ts_sec * 10^9 + ts_nsec` is not the Unix-nanosecond value of the reading. -/
theorem writePcapRecHdr_ts_counterexample :
    (decodeRecHdr (writePcapRecHdr bufferWrite [] { sec := 4294967296, nsec := 0 } []).1).TsSec = 0
      ∧ ¬ (((decodeRecHdr (writePcapRecHdr bufferWrite [] { sec := 4294967296, nsec := 0 } []).1).TsSec
              : Int) * 1000000000
            + ((decodeRecHdr (writePcapRecHdr bufferWrite [] { sec := 4294967296, nsec := 0 } []).1).TsUsec
              : Int)
          = Time.nanos { sec := 4294967296, nsec := 0 }) := by
  decide

/-- C4, amended: for every clock reading `t` whose Unix seconds fit a `uint32`
(`0 ≤ sec < 2^32`, nanoseconds within the second below `10^9`), the header
written by `writePcapRecHdr` carries `ts_sec` equal to the whole Unix seconds
of `t` and `ts_nsec` equal to the nanoseconds within that second, so that
`ts_nsec < 10^9` and `ts_sec * 10^9 + ts_nsec` is the Unix-nanosecond value of
`t`. -/
theorem writePcapRecHdr_ts (t : Time) (pktBytes s : List Byte)
    (hn : t.nsec < 1000000000) (h0 : 0 ≤ t.sec) (h1 : t.sec < 4294967296) :
    ∃ hdr : PcapRecHdr,
      writePcapRecHdr bufferWrite s t pktBytes = (s ++ encodeRecHdr hdr, none)
      ∧ decodeRecHdr (encodeRecHdr hdr) = hdr
      ∧ (hdr.TsSec : Int) = t.sec
      ∧ hdr.TsUsec = t.nsec
      ∧ hdr.TsUsec < 1000000000
      ∧ (hdr.TsSec : Int) * 1000000000 + (hdr.TsUsec : Int) = t.nanos := by
  obtain ⟨hs, hu⟩ := mkRecHdr_ts t pktBytes hn h0 h1
  refine ⟨mkRecHdr t pktBytes, rfl, ?_, hs, hu, by omega, ?_⟩
  · have e := decodeRecHdr_encodeRecHdr (mkRecHdr t pktBytes) []
    rw [List.append_nil] at e
    rw [e]
    have a1 : (mkRecHdr t pktBytes).TsSec < 4294967296 := by omega
    have a2 : (mkRecHdr t pktBytes).TsUsec < 4294967296 := by omega
    have a3 : (mkRecHdr t pktBytes).InclLen < 4294967296 := by
      simp only [mkRecHdr]; omega
    have a4 : (mkRecHdr t pktBytes).OrigLen < 4294967296 := by
      simp only [mkRecHdr]; omega
    rw [Nat.mod_eq_of_lt a1, Nat.mod_eq_of_lt a2, Nat.mod_eq_of_lt a3, Nat.mod_eq_of_lt a4]
  · rw [hs, hu]; rfl

/-- Witness of the amended C4 at 2017-07-14T02:40:00.5Z. -/
theorem writePcapRecHdr_ts_witness :
    ∃ hdr : PcapRecHdr,
      writePcapRecHdr bufferWrite [] { sec := 1500000000, nsec := 500000000 } [1, 2]
          = ([] ++ encodeRecHdr hdr, none)
      ∧ decodeRecHdr (encodeRecHdr hdr) = hdr
      ∧ (hdr.TsSec : Int) = ({ sec := 1500000000, nsec := 500000000 } : Time).sec
      ∧ hdr.TsUsec = ({ sec := 1500000000, nsec := 500000000 } : Time).nsec
      ∧ hdr.TsUsec < 1000000000
      ∧ (hdr.TsSec : Int) * 1000000000 + (hdr.TsUsec : Int)
          = Time.nanos { sec := 1500000000, nsec := 500000000 } :=
  writePcapRecHdr_ts { sec := 1500000000, nsec := 500000000 } [1, 2] []
    (by decide) (by decide) (by decide)

/-! ## Lemmas on reading -/

theorem decodeRecHdr_take (f : List Byte) : decodeRecHdr (f.take 16) = decodeRecHdr f := by
  simp [decodeRecHdr, uint32At, List.getD_eq_getElem?_getD, List.getElem?_take]

theorem ReadPcapOnePacket_nil (pkt : Packet) :
    ReadPcapOnePacket pkt [] = { pkt := pkt, rest := [], eof := true, err := none } := rfl

theorem ReadPcapOnePacket_short_hdr (pkt : Packet) (f : List Byte)
    (h0 : 0 < f.length) (h1 : f.length < 16) :
    ReadPcapOnePacket pkt f
      = { pkt := pkt, rest := [], eof := false, err := some .ErrUnexpectedEOF } := by
  have a : ¬ 16 ≤ f.length := by omega
  have b : ¬ f.length = 0 := by omega
  simp [ReadPcapOnePacket, readPcapRecHdr, ioReadFull, a, b]

theorem ReadPcapOnePacket_short_body (pkt : Packet) (f : List Byte)
    (h0 : 16 ≤ f.length) (h1 : f.length < 16 + (decodeRecHdr f).InclLen) :
    ReadPcapOnePacket pkt f
      = { pkt := pkt, rest := [], eof := false,
          err := some (if f.length = 16 then .EOF else .ErrUnexpectedEOF) } := by
  have a : ¬ (decodeRecHdr f).InclLen ≤ f.length - 16 := by omega
  by_cases c : f.length = 16
  · have b : f.length - 16 = 0 := by omega
    have d : ¬ (decodeRecHdr f).InclLen = 0 := by omega
    simp [ReadPcapOnePacket, readPcapRecHdr, readPacketBytes, ioReadFull, h0, decodeRecHdr_take, a, b, c, d]
  · have b : ¬ f.length - 16 = 0 := by omega
    simp [ReadPcapOnePacket, readPcapRecHdr, readPacketBytes, ioReadFull, h0, decodeRecHdr_take, a, b, c]

theorem ReadPcapOnePacket_ok (pkt : Packet) (f : List Byte)
    (h1 : 16 + (decodeRecHdr f).InclLen ≤ f.length) :
    ReadPcapOnePacket pkt f
      = { pkt := { raw := (f.drop 16).take (decodeRecHdr f).InclLen },
          rest := f.drop (16 + (decodeRecHdr f).InclLen), eof := false, err := none } := by
  have h0 : 16 ≤ f.length := by omega
  have a : (decodeRecHdr f).InclLen ≤ f.length - 16 := by omega
  simp [ReadPcapOnePacket, readPcapRecHdr, readPacketBytes, ioReadFull, h0, decodeRecHdr_take, a,
    GeneratePacketFromByte, Nat.add_comm]


theorem ReadPcapOnePacket_record (pkt : Packet) (h : PcapRecHdr) (body tail : List Byte)
    (hb : h.InclLen % 4294967296 = body.length) :
    ReadPcapOnePacket pkt (encodeRecHdr h ++ (body ++ tail))
      = { pkt := { raw := body }, rest := tail, eof := false, err := none } := by
  have e : (decodeRecHdr (encodeRecHdr h ++ (body ++ tail))).InclLen = body.length := by
    rw [decodeRecHdr_encodeRecHdr]; exact hb
  have hl : 16 + (decodeRecHdr (encodeRecHdr h ++ (body ++ tail))).InclLen
      ≤ (encodeRecHdr h ++ (body ++ tail)).length := by
    rw [e]; simp [encodeRecHdr_length]
  rw [ReadPcapOnePacket_ok pkt _ hl, e]
  have d16 : List.drop 16 (encodeRecHdr h ++ (body ++ tail)) = body ++ tail :=
    List.drop_left' (encodeRecHdr_length h)
  have d2 : List.drop (16 + body.length) (encodeRecHdr h ++ (body ++ tail)) = tail := by
    rw [← List.drop_drop, d16, List.drop_left]
  rw [d16, d2, List.take_left]

/-! ## Outcomes of one read -/

/-- C5: for every byte stream positioned at a record boundary,
`ReadPcapOnePacket` returns `(eof = true, no error)` exactly when no bytes
remain; it returns `(eof = false, an error)` exactly when 1 to 15 bytes remain
or a complete 16-byte header is followed by fewer than `incl_len` body bytes;
in every other case it returns `(eof = false, no error)`, has consumed exactly
`16 + incl_len` octets and has produced a packet made of the `incl_len` body
bytes. -/
theorem ReadPcapOnePacket_outcomes (pkt : Packet) (f : List Byte) :
    (((ReadPcapOnePacket pkt f).eof = true ∧ (ReadPcapOnePacket pkt f).err = none)
        ↔ f.length = 0)
    ∧ (((ReadPcapOnePacket pkt f).eof = false ∧ (ReadPcapOnePacket pkt f).err ≠ none)
        ↔ ((1 ≤ f.length ∧ f.length ≤ 15)
            ∨ (16 ≤ f.length ∧ f.length < 16 + (decodeRecHdr f).InclLen)))
    ∧ (f.length ≠ 0 →
        ¬ ((1 ≤ f.length ∧ f.length ≤ 15)
            ∨ (16 ≤ f.length ∧ f.length < 16 + (decodeRecHdr f).InclLen)) →
        (ReadPcapOnePacket pkt f).eof = false ∧ (ReadPcapOnePacket pkt f).err = none
          ∧ (ReadPcapOnePacket pkt f).rest = f.drop (16 + (decodeRecHdr f).InclLen)
          ∧ f.length = 16 + (decodeRecHdr f).InclLen + (ReadPcapOnePacket pkt f).rest.length
          ∧ (ReadPcapOnePacket pkt f).pkt.raw = (f.drop 16).take (decodeRecHdr f).InclLen
          ∧ (ReadPcapOnePacket pkt f).pkt.raw.length = (decodeRecHdr f).InclLen
          ∧ f = f.take 16 ++ (ReadPcapOnePacket pkt f).pkt.raw
                ++ (ReadPcapOnePacket pkt f).rest) := by
  rcases Nat.eq_zero_or_pos f.length with h | h
  · have hf : f = [] := List.length_eq_zero.mp h
    subst hf
    simp [ReadPcapOnePacket_nil]
  · by_cases h16 : f.length < 16
    · rw [ReadPcapOnePacket_short_hdr pkt f h h16]
      refine ⟨?_, ?_, ?_⟩
      · constructor
        · rintro ⟨h1, _⟩; exact absurd h1 (by simp)
        · intro h0; omega
      · constructor
        · intro _; exact Or.inl ⟨h, by omega⟩
        · intro _; exact ⟨rfl, by simp⟩
      · intro _ hne; exact absurd (Or.inl ⟨h, by omega⟩) hne
    · by_cases hb : f.length < 16 + (decodeRecHdr f).InclLen
      · rw [ReadPcapOnePacket_short_body pkt f (by omega) hb]
        refine ⟨?_, ?_, ?_⟩
        · constructor
          · rintro ⟨h1, _⟩; exact absurd h1 (by simp)
          · intro h0; omega
        · constructor
          · intro _; exact Or.inr ⟨by omega, hb⟩
          · intro _; exact ⟨rfl, by simp⟩
        · intro _ hne; exact absurd (Or.inr ⟨by omega, hb⟩) hne
      · rw [ReadPcapOnePacket_ok pkt f (by omega)]
        refine ⟨?_, ?_, ?_⟩
        · constructor
          · rintro ⟨h1, _⟩; exact absurd h1 (by simp)
          · intro h0; omega
        · constructor
          · rintro ⟨_, h2⟩; exact absurd rfl h2
          · rintro (⟨_, h2⟩ | ⟨_, h2⟩) <;> omega
        · intro _ _
          refine ⟨rfl, rfl, rfl, ?_, rfl, ?_, ?_⟩
          · simp; omega
          · simp; omega
          · simp only
            rw [List.append_assoc, ← List.drop_drop, List.take_append_drop, List.take_append_drop]

/-! ## Round trip -/

theorem writePackets_eq (ps : List (Time × Packet)) (s : List Byte) :
    writePackets ps s = (s ++ records ps, none) := by
  induction ps generalizing s with
  | nil => simp [writePackets, records]
  | cons x rest ih =>
    obtain ⟨t, p⟩ := x
    simp only [writePackets, WritePcapOnePacket_buffer, ih, records, List.append_assoc]

theorem writeCapture_eq (ps : List (Time × Packet)) :
    writeCapture ps = (encodeGlobHdr writtenGlobHdr ++ records ps, none) := by
  have h : WritePcapGlobalHdr bufferWrite [] = (encodeGlobHdr writtenGlobHdr, none) := by decide
  simp only [writeCapture, h, writePackets_eq]

theorem ReadPcapGlobalHdr_written (tail : List Byte) (glHdr : PcapGlobHdr) :
    ReadPcapGlobalHdr (encodeGlobHdr writtenGlobHdr ++ tail) glHdr
      = (tail, writtenGlobHdr, none) := by
  have hl : (encodeGlobHdr writtenGlobHdr).length = 24 := rfl
  have hd : decodeGlobHdr (encodeGlobHdr writtenGlobHdr) = writtenGlobHdr := by decide
  have h24 : 24 ≤ (encodeGlobHdr writtenGlobHdr ++ tail).length := by
    rw [List.length_append, hl]; omega
  simp only [ReadPcapGlobalHdr, ioReadFull, PcapGlobHdrSize, h24, if_true,
    List.drop_left' hl, List.take_left' hl, hd]

theorem readPackets_records (ps : List (Time × Packet)) (tail : List Byte)
    (hp : ∀ x ∈ ps, x.2.raw.length < 4294967296) :
    (readPackets ps.length (records ps ++ tail)).1.map (fun r => (r.pkt.raw, r.eof, r.err))
        = ps.map (fun x => (x.2.raw, false, none))
      ∧ (readPackets ps.length (records ps ++ tail)).2 = tail := by
  induction ps with
  | nil => simp [readPackets, records]
  | cons x rest ih =>
    obtain ⟨t, p⟩ := x
    have hlen : p.raw.length < 4294967296 := hp (t, p) (List.mem_cons_self _ _)
    have hrest : ∀ x ∈ rest, x.2.raw.length < 4294967296 :=
      fun x hx => hp x (List.mem_cons_of_mem _ hx)
    have hb : (mkRecHdr t p.raw).InclLen % 4294967296 = p.raw.length := by
      simp only [mkRecHdr]; omega
    have hr := ReadPcapOnePacket_record { raw := [] } (mkRecHdr t p.raw) p.raw
      (records rest ++ tail) hb
    obtain ⟨ih1, ih2⟩ := ih hrest
    have e : records ((t, p) :: rest) ++ tail
        = encodeRecHdr (mkRecHdr t p.raw) ++ (p.raw ++ (records rest ++ tail)) := by
      simp [records, List.append_assoc]
    simp only [List.length_cons, readPackets, e, hr, List.map_cons, ih1, ih2, and_self]

/-- C1: pcap round trip. For every finite list of packets (the empty list and
empty packets included; each packet of a length that the 32-bit `incl_len`
holds), whatever the clock readings, the stream produced by
`WritePcapGlobalHdr` followed by `WritePcapOnePacket` for each packet in order
is read back by `ReadPcapGlobalHdr` followed by repeated `ReadPcapOnePacket` as
exactly the byte strings of the packets, in the same order, each call
returning `(eof = false, no error)`; the call after the last packet returns
`(eof = true, no error)`. -/
theorem pcap_roundtrip (ps : List (Time × Packet)) (glHdr : PcapGlobHdr) (pkt : Packet)
    (hp : ∀ x ∈ ps, x.2.raw.length < 4294967296) :
    ∃ stream : List Byte,
      writeCapture ps = (stream, none)
      ∧ (ReadPcapGlobalHdr stream glHdr).2 = (writtenGlobHdr, none)
      ∧ (readPackets ps.length (ReadPcapGlobalHdr stream glHdr).1).1.map
            (fun r => (r.pkt.raw, r.eof, r.err))
          = ps.map (fun x => (x.2.raw, false, none))
      ∧ (ReadPcapOnePacket pkt
            (readPackets ps.length (ReadPcapGlobalHdr stream glHdr).1).2).eof = true
      ∧ (ReadPcapOnePacket pkt
            (readPackets ps.length (ReadPcapGlobalHdr stream glHdr).1).2).err = none := by
  refine ⟨encodeGlobHdr writtenGlobHdr ++ records ps, writeCapture_eq ps, ?_⟩
  rw [ReadPcapGlobalHdr_written]
  have h := readPackets_records ps [] hp
  rw [List.append_nil] at h
  refine ⟨rfl, h.1, ?_, ?_⟩
  · rw [h.2]; rfl
  · rw [h.2]; rfl

/-- Witness of C1 on a two-octet packet followed by an empty packet. -/
theorem pcap_roundtrip_witness :
    ∃ stream : List Byte,
      writeCapture [({ sec := 1, nsec := 2 }, { raw := [7, 8] }), ({ sec := 3, nsec := 4 }, { raw := [] })]
        = (stream, none)
      ∧ (ReadPcapGlobalHdr stream writtenGlobHdr).2 = (writtenGlobHdr, none)
      ∧ (readPackets
            [(({ sec := 1, nsec := 2 } : Time), ({ raw := [7, 8] } : Packet)),
              ({ sec := 3, nsec := 4 }, { raw := [] })].length
            (ReadPcapGlobalHdr stream writtenGlobHdr).1).1.map
            (fun r => (r.pkt.raw, r.eof, r.err))
          = [(({ sec := 1, nsec := 2 } : Time), ({ raw := [7, 8] } : Packet)),
              ({ sec := 3, nsec := 4 }, { raw := [] })].map (fun x => (x.2.raw, false, none))
      ∧ (ReadPcapOnePacket { raw := [] }
            (readPackets
              [(({ sec := 1, nsec := 2 } : Time), ({ raw := [7, 8] } : Packet)),
                ({ sec := 3, nsec := 4 }, { raw := [] })].length
              (ReadPcapGlobalHdr stream writtenGlobHdr).1).2).eof = true
      ∧ (ReadPcapOnePacket { raw := [] }
            (readPackets
              [(({ sec := 1, nsec := 2 } : Time), ({ raw := [7, 8] } : Packet)),
                ({ sec := 3, nsec := 4 }, { raw := [] })].length
              (ReadPcapGlobalHdr stream writtenGlobHdr).1).2).err = none :=
  pcap_roundtrip
    [({ sec := 1, nsec := 2 }, { raw := [7, 8] }), ({ sec := 3, nsec := 4 }, { raw := [] })]
    writtenGlobHdr { raw := [] } (by decide)

/-! ## The `orig_len` field -/

/-- C6 fails as stated: two well-formed records that differ only in `orig_len`
(2 and 1500) are both read successfully and leave exactly the same returned
values, packet and stream, so no function of what the call returns or leaves
in the packet gives back the stored `orig_len`. -/
theorem ReadPcapOnePacket_orig_len_counterexample :
    (decodeRecHdr fullRecord).OrigLen = 2
      ∧ (decodeRecHdr truncatedRecord).OrigLen = 1500
      ∧ (ReadPcapOnePacket { raw := [] } fullRecord).err = none
      ∧ (ReadPcapOnePacket { raw := [] } fullRecord).eof = false
      ∧ ReadPcapOnePacket { raw := [] } fullRecord
          = ReadPcapOnePacket { raw := [] } truncatedRecord
      ∧ ¬ ∃ g : ReadResult → Nat,
          g (ReadPcapOnePacket { raw := [] } fullRecord) = (decodeRecHdr fullRecord).OrigLen
          ∧ g (ReadPcapOnePacket { raw := [] } truncatedRecord)
              = (decodeRecHdr truncatedRecord).OrigLen := by
  have e : ReadPcapOnePacket { raw := [] } fullRecord
      = ReadPcapOnePacket { raw := [] } truncatedRecord := by decide
  have o1 : (decodeRecHdr fullRecord).OrigLen = 2 := by decide
  have o2 : (decodeRecHdr truncatedRecord).OrigLen = 1500 := by decide
  refine ⟨o1, o2, by decide, by decide, e, ?_⟩
  rintro ⟨g, h1, h2⟩
  rw [e, h2, o1, o2] at h1
  exact absurd h1 (by decide)

/-- C6, amended: for every well-formed record (header fields `ts_sec, ts_nsec,
incl_len, orig_len` with `incl_len` body bytes), a successful
`ReadPcapOnePacket` hands the caller the `incl_len` body bytes and drops
`orig_len`: the outcome is the same whatever `orig_len` the record stores, and
the length of the packet bytes is `incl_len`; so the stored `orig_len` is
recovered from the packet exactly when it equals `incl_len`, as in every
record that `WritePcapOnePacket` writes. -/
theorem ReadPcapOnePacket_orig_len (pkt : Packet) (tsSec tsNsec inclLen origLen origLen' : Nat)
    (body tail : List Byte) (hi : inclLen < 4294967296) (hb : body.length = inclLen) :
    ReadPcapOnePacket pkt
        (encodeRecHdr { TsSec := tsSec, TsUsec := tsNsec, InclLen := inclLen, OrigLen := origLen }
          ++ (body ++ tail))
      = { pkt := { raw := body }, rest := tail, eof := false, err := none }
    ∧ ReadPcapOnePacket pkt
        (encodeRecHdr { TsSec := tsSec, TsUsec := tsNsec, InclLen := inclLen, OrigLen := origLen' }
          ++ (body ++ tail))
      = ReadPcapOnePacket pkt
        (encodeRecHdr { TsSec := tsSec, TsUsec := tsNsec, InclLen := inclLen, OrigLen := origLen }
          ++ (body ++ tail))
    ∧ (ReadPcapOnePacket pkt
        (encodeRecHdr { TsSec := tsSec, TsUsec := tsNsec, InclLen := inclLen, OrigLen := origLen }
          ++ (body ++ tail))).pkt.raw.length = inclLen
    ∧ ((ReadPcapOnePacket pkt
        (encodeRecHdr { TsSec := tsSec, TsUsec := tsNsec, InclLen := inclLen, OrigLen := origLen }
          ++ (body ++ tail))).pkt.raw.length = origLen ↔ origLen = inclLen) := by
  have m : ∀ o : Nat, ({ TsSec := tsSec, TsUsec := tsNsec, InclLen := inclLen, OrigLen := o }
      : PcapRecHdr).InclLen % 4294967296 = body.length := by
    intro o; simp only; omega
  rw [ReadPcapOnePacket_record pkt _ body tail (m origLen),
    ReadPcapOnePacket_record pkt _ body tail (m origLen')]
  refine ⟨rfl, rfl, hb, ?_⟩
  simp only [hb]
  exact eq_comm

/-- Witness of the amended C6 on the record written for a two-octet packet. -/
theorem ReadPcapOnePacket_orig_len_witness :
    ReadPcapOnePacket { raw := [] }
        (encodeRecHdr { TsSec := 1, TsUsec := 2, InclLen := 2, OrigLen := 2 }
          ++ ([0xaa, 0xbb] ++ []))
      = { pkt := { raw := [0xaa, 0xbb] }, rest := [], eof := false, err := none }
    ∧ ReadPcapOnePacket { raw := [] }
        (encodeRecHdr { TsSec := 1, TsUsec := 2, InclLen := 2, OrigLen := 1500 }
          ++ ([0xaa, 0xbb] ++ []))
      = ReadPcapOnePacket { raw := [] }
        (encodeRecHdr { TsSec := 1, TsUsec := 2, InclLen := 2, OrigLen := 2 }
          ++ ([0xaa, 0xbb] ++ []))
    ∧ (ReadPcapOnePacket { raw := [] }
        (encodeRecHdr { TsSec := 1, TsUsec := 2, InclLen := 2, OrigLen := 2 }
          ++ ([0xaa, 0xbb] ++ []))).pkt.raw.length = 2
    ∧ ((ReadPcapOnePacket { raw := [] }
        (encodeRecHdr { TsSec := 1, TsUsec := 2, InclLen := 2, OrigLen := 2 }
          ++ ([0xaa, 0xbb] ++ []))).pkt.raw.length = 2 ↔ 2 = 2) :=
  ReadPcapOnePacket_orig_len { raw := [] } 1 2 2 2 1500 [0xaa, 0xbb] [] (by decide) (by decide)

/-! ## Write errors -/

/-- C7: pcap write errors are returned to the caller without retry. For every
writer: if the write of the record header fails with `e`, `WritePcapOnePacket`
returns `e` and the header is the only write issued; if the header write
succeeds, the body is written next and its outcome is returned; the call
returns no error only when both writes succeeded; the writes issued are the
header once, or the header once followed by the body once. Likewise
`WritePcapGlobalHdr` issues a single write and returns its error unchanged. -/
theorem WritePcapOnePacket_write_errors {σ ε : Type} (f : Writer σ ε) (s : σ) (pkt : Packet)
    (t : Time) :
    (∀ e : ε, (f s (encodeRecHdr (mkRecHdr t pkt.raw))).2 = some e →
        WritePcapOnePacket pkt (traced f) (s, []) t
          = (((f s (encodeRecHdr (mkRecHdr t pkt.raw))).1, [encodeRecHdr (mkRecHdr t pkt.raw)]),
              some e))
    ∧ ((f s (encodeRecHdr (mkRecHdr t pkt.raw))).2 = none →
        WritePcapOnePacket pkt (traced f) (s, []) t
          = (((f (f s (encodeRecHdr (mkRecHdr t pkt.raw))).1 pkt.raw).1,
                [encodeRecHdr (mkRecHdr t pkt.raw), pkt.raw]),
              (f (f s (encodeRecHdr (mkRecHdr t pkt.raw))).1 pkt.raw).2))
    ∧ ((WritePcapOnePacket pkt (traced f) (s, []) t).2 = none ↔
        ((f s (encodeRecHdr (mkRecHdr t pkt.raw))).2 = none
          ∧ (f (f s (encodeRecHdr (mkRecHdr t pkt.raw))).1 pkt.raw).2 = none))
    ∧ ((WritePcapOnePacket pkt (traced f) (s, []) t).1.2 = [encodeRecHdr (mkRecHdr t pkt.raw)]
        ∨ (WritePcapOnePacket pkt (traced f) (s, []) t).1.2
            = [encodeRecHdr (mkRecHdr t pkt.raw), pkt.raw])
    ∧ WritePcapGlobalHdr (traced f) (s, [])
        = (((f s (encodeGlobHdr writtenGlobHdr)).1, [encodeGlobHdr writtenGlobHdr]),
            (f s (encodeGlobHdr writtenGlobHdr)).2) := by
  have hg : WritePcapGlobalHdr (traced f) (s, [])
      = (((f s (encodeGlobHdr writtenGlobHdr)).1, [encodeGlobHdr writtenGlobHdr]),
          (f s (encodeGlobHdr writtenGlobHdr)).2) := by
    simp only [WritePcapGlobalHdr, binaryWrite, traced, writtenGlobHdr]
    cases (f s (encodeGlobHdr ⟨0xa1b23c4d, 2, 4, 0, 0, 65535, 1⟩)).2 <;> simp
  refine ⟨?_, ?_, ?_, ?_, hg⟩
  all_goals
    simp only [WritePcapOnePacket, writePcapRecHdr, writePacketBytes, binaryWrite, traced,
      GetRawPacketBytesMbuf]
    cases h1 : (f s (encodeRecHdr (mkRecHdr t pkt.raw))).2 <;>
      cases h2 : (f (f s (encodeRecHdr (mkRecHdr t pkt.raw))).1 pkt.raw).2 <;> simp [h2]

/-! ## Verdict of the separate stability test -/

theorem percentages_eq (recv1 recv2 : Nat) :
    percentages recv1 recv2
      = some (if (recv1 + recv2) % u64 = 0 then 0
                else toInt (recv1 * 100 % u64 / ((recv1 + recv2) % u64)),
              if (recv1 + recv2) % u64 = 0 then 0
                else toInt (recv2 * 100 % u64 / ((recv1 + recv2) % u64))) := by
  unfold percentages udiv
  by_cases h : (recv1 + recv2) % u64 = 0 <;> simp [h]

theorem low1_pos : ¬ (low1 ≤ 0) := by decide

theorem high1_nonneg : (0 : Int) ≤ high1 := by decide

theorem high2_nonneg : (0 : Int) ≤ high2 := by decide

theorem mainVerdict_received_zero (sent recv1 recv2 : Nat) (h0 : (recv1 + recv2) % u64 = 0) :
    mainVerdict sent recv1 recv2 = some .failed := by
  simp only [mainVerdict, percentages_eq, h0, if_true, high1_nonneg, high2_nonneg, ge_iff_le,
    low1_pos, if_false]

/-- C8: the comments of the test say it is passed if `p1` is in
`[low1, high1] = [31, 35]` and `p2` is in `[low2, high2] = [64, 68]`. At
`sent = 1000`, `recv1 = 33`, `recv2 = 67` the percentages are `p1 = 33` and
`p2 = 67`, both in range, and the code prints TEST FAILED: the condition also
asks for `received*100/sent > passedLimit`, and here that quotient is 10. -/
theorem mainVerdict_in_range_failed :
    percentages 33 67 = some (33, 67)
      ∧ (low1, high1, low2, high2) = (31, 35, 64, 68)
      ∧ (low1 ≤ 33 ∧ (33 : Int) ≤ high1)
      ∧ (low2 ≤ 67 ∧ (67 : Int) ≤ high2)
      ∧ mainVerdict 1000 33 67 = some .failed := by
  decide

/-- The verdict of `main` in full: with `received = recv1 + recv2`,
`p1 = recv1*100/received` and `p2 = recv2*100/received` (unsigned 64-bit
arithmetic, integer division, both 0 when `received = 0`), TEST PASSED is
printed if and only if `p1` is in `[31, 35]`, `p2` is in `[64, 68]`, `sent` is
not zero and `received*100/sent` exceeds `passedLimit = 85`. -/
theorem mainVerdict_passed_iff (sent recv1 recv2 : Nat) :
    percentages recv1 recv2
        = some (if (recv1 + recv2) % u64 = 0 then 0
                  else toInt (recv1 * 100 % u64 / ((recv1 + recv2) % u64)),
                if (recv1 + recv2) % u64 = 0 then 0
                  else toInt (recv2 * 100 % u64 / ((recv1 + recv2) % u64)))
    ∧ (low1, high1, low2, high2, passedLimit) = (31, 35, 64, 68, 85)
    ∧ (mainVerdict sent recv1 recv2 = some .passed ↔
        ∃ p1 p2 : Int, percentages recv1 recv2 = some (p1, p2)
          ∧ low1 ≤ p1 ∧ p1 ≤ high1 ∧ low2 ≤ p2 ∧ p2 ≤ high2
          ∧ sent ≠ 0 ∧ (recv1 + recv2) % u64 * 100 % u64 / sent > passedLimit) := by
  refine ⟨percentages_eq recv1 recv2, by decide, ?_⟩
  rw [percentages_eq]
  simp only [mainVerdict, percentages_eq, udiv]
  constructor
  · intro h
    refine ⟨_, _, rfl, ?_⟩
    split_ifs at h <;> simp_all
  · rintro ⟨p1, p2, he, h1, h2, h3, h4, h5, h6⟩
    simp only [Option.some.injEq, Prod.mk.injEq] at he
    obtain ⟨e1, e2⟩ := he
    rw [e1, e2]
    simp only [h1, h2, h3, h4, h5, ge_iff_le, if_true, if_false]
    rw [if_pos h6]

/-- C10: the verdict computation never divides by zero when no more packets
were received than sent. For all 64-bit counter values with
`recv1 + recv2 ≤ sent`: the divisions by `received` do not panic (they are
guarded by `received != 0`), the whole verdict is computed without panic, with
`received = 0` the verdict is TEST FAILED (the short-circuit on `p1 >= low1`
stops before `received*100/sent`), and TEST PASSED is printed only with
`sent > 0`. -/
theorem mainVerdict_no_panic (sent recv1 recv2 : Nat) (hs : sent < u64)
    (hr : recv1 + recv2 ≤ sent) :
    percentages recv1 recv2 ≠ none
      ∧ mainVerdict sent recv1 recv2 ≠ none
      ∧ (recv1 + recv2 = 0 → mainVerdict sent recv1 recv2 = some .failed)
      ∧ (mainVerdict sent recv1 recv2 = some .passed → 0 < sent) := by
  have hm : (recv1 + recv2) % u64 = recv1 + recv2 := Nat.mod_eq_of_lt (by omega)
  refine ⟨by rw [percentages_eq]; simp, ?_, ?_, ?_⟩
  · by_cases h0 : recv1 + recv2 = 0
    · rw [mainVerdict_received_zero sent recv1 recv2 (by rw [hm]; exact h0)]; simp
    · have hs0 : sent ≠ 0 := by omega
      simp only [mainVerdict, percentages_eq, udiv, hm, h0, hs0, if_false]
      split_ifs <;> simp
  · intro h0
    exact mainVerdict_received_zero sent recv1 recv2 (by rw [hm]; exact h0)
  · intro h
    rcases Nat.eq_zero_or_pos sent with h0 | h0
    · have hz : recv1 + recv2 = 0 := by omega
      rw [mainVerdict_received_zero sent recv1 recv2 (by rw [hm]; exact hz)] at h
      exact absurd h (by decide)
    · exact h0


/-- Witness of C10 at `sent = 100`, `recv1 = 33`, `recv2 = 67`. -/
theorem mainVerdict_no_panic_witness :
    percentages 33 67 ≠ none
      ∧ mainVerdict 100 33 67 ≠ none
      ∧ (33 + 67 = 0 → mainVerdict 100 33 67 = some .failed)
      ∧ (mainVerdict 100 33 67 = some .passed → 0 < 100) :=
  mainVerdict_no_panic 100 33 67 (by decide) (by decide)

/-! ## Round-robin generation -/

theorem swap_dstPort1 : SwapBytesUint16 (SwapBytesUint16 dstPort1) = 111 := by decide
theorem swap_dstPort2 : SwapBytesUint16 (SwapBytesUint16 dstPort2) = 222 := by decide
theorem swap_dstPort3 : SwapBytesUint16 (SwapBytesUint16 dstPort3) = 333 := by decide

theorem generatePacket_step (env : GenEnv)
    (hinit : ∀ p n, (env.InitEmptyIPv4UDPPacket p n).1 = true) (c : Nat) (p : GenPacket) :
    ∃ q : GenPacket, generatePacket env c (some p) = some ((c + 1) % u64, q)
      ∧ q.UDP.DstPort = SwapBytesUint16 (portOfCall ((c + 1) % u64))
      ∧ wirePort q = portOfCall ((c + 1) % u64) := by
  have hi := hinit p payloadSize
  rcases hq : env.InitEmptyIPv4UDPPacket p payloadSize with ⟨b, p'⟩
  rw [hq] at hi
  simp only at hi
  subst hi
  simp only [generatePacket, hq]
  by_cases h0 : (c + 1) % u64 % 3 = 0
  · exact ⟨_, rfl, by simp [h0, portOfCall, dstPort1], by simp [h0, portOfCall, wirePort, swap_dstPort1]⟩
  · by_cases h1 : (c + 1) % u64 % 3 = 1
    · exact ⟨_, rfl, by simp [h1, portOfCall, dstPort2], by simp [h1, portOfCall, wirePort, swap_dstPort2]⟩
    · exact ⟨_, rfl, by simp [h0, h1, portOfCall, dstPort3], by simp [h0, h1, portOfCall, wirePort, swap_dstPort3]⟩

theorem generateN_closed (env : GenEnv)
    (hinit : ∀ p n, (env.InitEmptyIPv4UDPPacket p n).1 = true) (n c : Nat) (hc : c < u64) :
    ∃ ps : List GenPacket, generateN env n c = some ((c + n) % u64, ps)
      ∧ ps.map wirePort = (List.range n).map (fun i => portOfCall ((c + i + 1) % u64))
      ∧ ps.map (fun q => q.UDP.DstPort)
          = (List.range n).map (fun i => SwapBytesUint16 (portOfCall ((c + i + 1) % u64))) := by
  induction n with
  | zero =>
    exact ⟨[], by simp [generateN, Nat.mod_eq_of_lt hc], by simp, by simp⟩
  | succ n ih =>
    obtain ⟨ps, h1, h2, h3⟩ := ih
    obtain ⟨q, g1, g2, g3⟩ := generatePacket_step env hinit ((c + n) % u64) blankPacket
    have e : ((c + n) % u64 + 1) % u64 = (c + n + 1) % u64 := by
      unfold u64; omega
    rw [e] at g1 g2 g3
    refine ⟨ps ++ [q], ?_, ?_, ?_⟩
    · simp only [generateN, h1, g1]
      rfl
    · rw [List.map_append, h2, List.range_succ, List.map_append]
      simp [g3]
    · rw [List.map_append, h3, List.range_succ, List.map_append]
      simp [g2]

theorem count_ports (K : Nat) :
    ((List.range (3 * K)).map (fun i => portOfCall (i + 1))).count 111 = K
      ∧ ((List.range (3 * K)).map (fun i => portOfCall (i + 1))).count 222 = K
      ∧ ((List.range (3 * K)).map (fun i => portOfCall (i + 1))).count 333 = K := by
  induction K with
  | zero => simp
  | succ K ih =>
    obtain ⟨a, b, c⟩ := ih
    have e : 3 * (K + 1) = 3 * K + 1 + 1 + 1 := by ring
    have p1 : portOfCall (3 * K + 1) = 222 := by
      have : (3 * K + 1) % 3 = 1 := by omega
      simp [portOfCall, this]
    have p2 : portOfCall (3 * K + 1 + 1) = 333 := by
      have : (3 * K + 1 + 1) % 3 = 2 := by omega
      simp [portOfCall, this]
    have p3 : portOfCall (3 * K + 1 + 1 + 1) = 111 := by
      have : (3 * K + 1 + 1 + 1) % 3 = 0 := by omega
      simp [portOfCall, this]
    rw [e]
    simp only [List.range_succ, List.map_append, List.map_cons, List.map_nil, List.count_append,
      a, b, c, p1, p2, p3]
    simp

end Yanff
namespace Yanff

theorem generatePacket_some (env : GenEnv) (c c' : Nat) (p q : GenPacket)
    (h : generatePacket env c (some p) = some (c', q)) :
    c' = (c + 1) % u64
      ∧ q.UDP.DstPort = SwapBytesUint16 (portOfCall c')
      ∧ wirePort q = portOfCall c' := by
  rcases hq : env.InitEmptyIPv4UDPPacket p payloadSize with ⟨b, p'⟩
  cases b with
  | false => simp [generatePacket, hq] at h
  | true =>
    simp only [generatePacket, hq, Option.some.injEq, Prod.mk.injEq] at h
    obtain ⟨h1, h2⟩ := h
    subst h1
    subst h2
    refine ⟨rfl, ?_, ?_⟩
    · by_cases h0 : (c + 1) % u64 % 3 = 0
      · simp [h0, portOfCall, dstPort1]
      · by_cases h1 : (c + 1) % u64 % 3 = 1
        · simp [h1, portOfCall, dstPort2]
        · simp [h0, h1, portOfCall, dstPort3]
    · by_cases h0 : (c + 1) % u64 % 3 = 0
      · simp [h0, portOfCall, wirePort, swap_dstPort1]
      · by_cases h1 : (c + 1) % u64 % 3 = 1
        · simp [h1, portOfCall, wirePort, swap_dstPort2]
        · simp [h0, h1, portOfCall, wirePort, swap_dstPort3]

theorem generateN_some (env : GenEnv) (n c0 : Nat) (hc : c0 < u64) :
    ∀ (c : Nat) (ps : List GenPacket), generateN env n c0 = some (c, ps) →
      c = (c0 + n) % u64
      ∧ ps.map wirePort = (List.range n).map (fun i => portOfCall ((c0 + i + 1) % u64))
      ∧ ps.map (fun q => q.UDP.DstPort)
          = (List.range n).map (fun i => SwapBytesUint16 (portOfCall ((c0 + i + 1) % u64))) := by
  induction n with
  | zero =>
    intro c ps h
    simp only [generateN, Option.some.injEq, Prod.mk.injEq] at h
    obtain ⟨h1, h2⟩ := h
    subst h1
    subst h2
    exact ⟨by simp [Nat.mod_eq_of_lt hc], by simp, by simp⟩
  | succ n ih =>
    intro c ps h
    rcases hg : generateN env n c0 with _ | ⟨c1, ps1⟩
    · simp [generateN, hg] at h
    · obtain ⟨i1, i2, i3⟩ := ih c1 ps1 hg
      rcases hs : generatePacket env c1 (some blankPacket) with _ | ⟨c2, q⟩
      · simp [generateN, hg, hs] at h
      · simp only [generateN, hg, hs, Option.some.injEq, Prod.mk.injEq] at h
        obtain ⟨h1, h2⟩ := h
        subst h1
        subst h2
        obtain ⟨g1, g2, g3⟩ := generatePacket_some env c1 c2 blankPacket q hs
        have e : c2 = (c0 + n + 1) % u64 := by
          rw [g1, i1]; unfold u64; omega
        refine ⟨e, ?_, ?_⟩
        · rw [List.map_append, i2, List.range_succ, List.map_append]
          simp [g3, e]
        · rw [List.map_append, i3, List.range_succ, List.map_append]
          simp [g2, e]

/-- C9: round-robin generation. When `generatePacket` is called sequentially
starting from `count = 0`, the `n`-th call (`n ≥ 1`, within the range of the
`uint64` counter) sets the UDP destination port (the field holds it in network
byte order) to 111 if `n mod 3 = 0`, to 222 if `n mod 3 = 1` and to 333 if
`n mod 3 = 2`; hence the first `3K` generated packets contain exactly `K`
packets for each of the ports 111, 222 and 333, and `count` equals the number
of calls made. This holds of every run of `n` calls that returns, and the run
returns whenever `InitEmptyIPv4UDPPacket` reports success. -/
theorem generatePacket_round_robin (env : GenEnv) (n : Nat) (hn : n < u64) :
    (∀ (c : Nat) (ps : List GenPacket), generateN env n 0 = some (c, ps) →
      c = n
      ∧ ps.length = n
      ∧ (∀ i, 1 ≤ i → i ≤ n →
          (ps.map wirePort)[i - 1]? = some (portOfCall i)
          ∧ (ps.map (fun q => q.UDP.DstPort))[i - 1]? = some (SwapBytesUint16 (portOfCall i)))
      ∧ (∀ K, 3 * K ≤ n →
          ((ps.take (3 * K)).map wirePort).count 111 = K
          ∧ ((ps.take (3 * K)).map wirePort).count 222 = K
          ∧ ((ps.take (3 * K)).map wirePort).count 333 = K))
    ∧ ((∀ p k, (env.InitEmptyIPv4UDPPacket p k).1 = true) →
        ∃ ps : List GenPacket, generateN env n 0 = some (n, ps)) := by
  have hz : (0 : Nat) < u64 := by unfold u64; omega
  have hmod : (0 + n) % u64 = n := by unfold u64 at *; omega
  constructor
  · intro c ps hgen
    obtain ⟨h1, h2, h3⟩ := generateN_some env n 0 hz c ps hgen
    have e2 : (List.range n).map (fun i => portOfCall ((0 + i + 1) % u64))
        = (List.range n).map (fun i => portOfCall (i + 1)) := by
      apply List.map_congr_left
      intro i hi
      have : i < n := List.mem_range.mp hi
      have : (0 + i + 1) % u64 = i + 1 := by unfold u64 at *; omega
      rw [this]
    have e3 : (List.range n).map (fun i => SwapBytesUint16 (portOfCall ((0 + i + 1) % u64)))
        = (List.range n).map (fun i => SwapBytesUint16 (portOfCall (i + 1))) := by
      apply List.map_congr_left
      intro i hi
      have : i < n := List.mem_range.mp hi
      have : (0 + i + 1) % u64 = i + 1 := by unfold u64 at *; omega
      rw [this]
    rw [e2] at h2
    rw [e3] at h3
    have hlen : ps.length = n := by
      have := congrArg List.length h2
      simpa using this
    refine ⟨by rw [h1, hmod], hlen, ?_, ?_⟩
    · intro i hi1 hi2
      have hlt : i - 1 < n := by omega
      have hs : i - 1 + 1 = i := by omega
      rw [h2, h3]
      simp [List.getElem?_map, List.getElem?_range hlt, hs]
    · intro K hK
      rw [List.map_take, h2, ← List.map_take, List.take_range, Nat.min_eq_left hK]
      exact count_ports K
  · intro hinit
    obtain ⟨ps, h1, _, _⟩ := generateN_closed env hinit n 0 hz
    exact ⟨ps, by rw [h1, hmod]⟩

/-- Witness of C9 on six calls. -/
theorem generatePacket_round_robin_witness :
    (generateN plainEnv 6 0).map (fun r => (r.1, r.2.map wirePort))
      = some (6, [222, 333, 111, 222, 333, 111])
    ∧ (∀ (c : Nat) (ps : List GenPacket), generateN plainEnv 6 0 = some (c, ps) →
      c = 6
      ∧ ps.length = 6
      ∧ (∀ i, 1 ≤ i → i ≤ 6 →
          (ps.map wirePort)[i - 1]? = some (portOfCall i)
          ∧ (ps.map (fun q => q.UDP.DstPort))[i - 1]? = some (SwapBytesUint16 (portOfCall i)))
      ∧ (∀ K, 3 * K ≤ 6 →
          ((ps.take (3 * K)).map wirePort).count 111 = K
          ∧ ((ps.take (3 * K)).map wirePort).count 222 = K
          ∧ ((ps.take (3 * K)).map wirePort).count 333 = K))
    ∧ ((∀ p k, (plainEnv.InitEmptyIPv4UDPPacket p k).1 = true) →
        ∃ ps : List GenPacket, generateN plainEnv 6 0 = some (6, ps)) :=
  ⟨by decide, generatePacket_round_robin plainEnv 6 (by decide)⟩

end Yanff
